import Mathlib

/-!
Verification development for the josiepy finite-volume scheme engine.

The Python source is shallowly embedded: numpy arrays of per-cell/per-face
samples become Lean functions or lists of per-face records, machine floats
become rationals, and the vectorized numpy kernels become per-face functions
mapped over faces.  Definitions follow the corresponding Python functions;
parts of the repository that are only imported here (the single-phase Euler
scheme helpers, the two-phase state layout, the EOS/closure collaborators)
are modelled from the specification and marked as such in their doc comments.
-/

set_option autoImplicit false

namespace Josie

/-- Two spatial components, e.g. a face normal or a velocity vector. -/
def Vec2 : Type := ℚ × ℚ

instance : Inhabited Vec2 := ⟨((0 : ℚ), (0 : ℚ))⟩

instance : DecidableEq Vec2 := instDecidableEqProd

/-- Dot product of two planar vectors (`np.einsum "...k,...k->..."`). -/
def dot (a b : Vec2) : ℚ := a.1 * b.1 + a.2 * b.2

/-- Modelled from the spec: the single-phase Euler state layout
(`josie/solver/euler/state.py` / `josie/euler/state.py` is absent from
`src/`).  Fields: density, momentum, total energy, internal energy,
velocity components, pressure and speed of sound — the fields read by
`EulerProblem.F` (`rhoU, rhoV, rhoE, U, V, p`) plus the remaining fields
of the nine-field single-phase layout (`rho, rhoe, c`). -/
structure EulerState where
  rho : ℚ
  rhoU : ℚ
  rhoV : ℚ
  rhoE : ℚ
  rhoe : ℚ
  U : ℚ
  V : ℚ
  p : ℚ
  c : ℚ
  deriving DecidableEq, Repr

instance : Inhabited EulerState := ⟨⟨0, 0, 0, 0, 0, 0, 0, 0, 0⟩⟩

/-- The 4 × 2 Euler flux tensor of one cell, embedding the eight entry
assignments of `EulerProblem.F` in `src/josie/euler/problem.py`
(lines 104–111): row 0 is `(rhoU, rhoV)`, row 1 is `(rhoU·U + p, rhoU·V)`,
row 2 is `(rhoV·U, rhoV·V + p)`, row 3 is `((rhoE + p)·U, (rhoE + p)·V)`.
The pressure is read from the state's `p` field; no EOS is consulted. -/
def eulerFluxTensor (q : EulerState) : Fin 4 → Fin 2 → ℚ :=
  ![![q.rhoU, q.rhoV],
    ![q.rhoU * q.U + q.p, q.rhoU * q.V],
    ![q.rhoV * q.U, q.rhoV * q.V + q.p],
    ![(q.rhoE + q.p) * q.U, (q.rhoE + q.p) * q.V]]

/-- Embedding of `EulerProblem.F` (`src/josie/euler/problem.py`): given the
grid of cell states it returns the freshly built `Nx × Ny × 4 × 2` flux
tensor, each cell's tensor computed from that cell's stored fields only. -/
def EulerProblem.F {nx ny : ℕ} (cells : Fin nx → Fin ny → EulerState) :
    Fin nx → Fin ny → Fin 4 → Fin 2 → ℚ :=
  fun i j => eulerFluxTensor (cells i j)

/-- Modelled from the spec: the two phases of the two-phase model
(`josie/solver/twophase/state.py` is absent from `src/`; the enumeration
`Phases` with members `PHASE1`, `PHASE2` is iterated in that order by the
schemes). -/
inductive Phases where
  | phase1
  | phase2
  deriving DecidableEq, Repr

/-- Modelled from the spec: the 19-field two-phase state (one mixture field,
the volume fraction, plus a full nine-field single-phase Euler state per
phase), matching the layout described in the `Rusanov.F` docstring
(`[Nx * Ny * 19]`); `josie/solver/twophase/state.py` is absent from
`src/`. -/
structure Q2 where
  alpha : ℚ
  phase1 : EulerState
  phase2 : EulerState
  deriving DecidableEq, Repr

instance : Inhabited Q2 := ⟨⟨0, default, default⟩⟩

/-- Modelled from the spec: the phase-indexed projection `Q.get_phase`,
yielding the single-phase sub-state of the requested phase. -/
def Q2.get_phase (q : Q2) : Phases → EulerState
  | .phase1 => q.phase1
  | .phase2 => q.phase2

/-- Modelled from the spec: the conservative subset of a single-phase state
(density, the two momentum components and the total energy), the four
slots written by the Rusanov flux and targeted by `get_conservative`. -/
def EulerState.cons (s : EulerState) : Fin 4 → ℚ :=
  ![s.rho, s.rhoU, s.rhoV, s.rhoE]

/-- Modelled from the spec: writing a four-vector into the conservative
slots of a single-phase state, leaving every other field unchanged. -/
def EulerState.setCons (s : EulerState) (v : Fin 4 → ℚ) : EulerState :=
  { s with rho := v 0, rhoU := v 1, rhoV := v 2, rhoE := v 3 }

/-- Modelled from the spec: `Q.set_phase_conservative`, writing a
four-vector into the requested phase's conservative slots of a two-phase
state. -/
def Q2.set_phase_conservative (q : Q2) (ph : Phases) (v : Fin 4 → ℚ) : Q2 :=
  match ph with
  | .phase1 => { q with phase1 := q.phase1.setCons v }
  | .phase2 => { q with phase2 := q.phase2.setCons v }

/-- Modelled from the spec: `EulerRusanov.compute_U_norm`, the velocity
vector of the state dotted with the face normal
(`josie/solver/euler/schemes.py` is absent from `src/`). -/
def compute_U_norm (s : EulerState) (normal : Vec2) : ℚ :=
  s.U * normal.1 + s.V * normal.2

/-- Modelled from the spec: `EulerRusanov.compute_sigma`, the local signal
speed `|U_norm| + c` of one side of a face
(`josie/solver/euler/schemes.py` is absent from `src/`). -/
def compute_sigma (U c : ℚ) : ℚ := |U| + c

/-- Local signal speed of one single-phase state at a face. -/
def sigmaSide (s : EulerState) (normal : Vec2) : ℚ :=
  compute_sigma (compute_U_norm s normal) s.c

/-- Embedding of the `sigma` computed by the two-phase `Rusanov.F`
(`src/josie/solver/twophase/schemes.py`, lines 114–142): the four local
signal speeds — cell and neighbour of each phase — are collected and the
maximum over all of them is taken. -/
def rusanovSigma (values neigh_values : Q2) (normal : Vec2) : ℚ :=
  max
    (max (sigmaSide (values.get_phase .phase1) normal)
      (sigmaSide (neigh_values.get_phase .phase1) normal))
    (max (sigmaSide (values.get_phase .phase2) normal)
      (sigmaSide (neigh_values.get_phase .phase2) normal))

/-- Modelled from the spec: the per-phase problem obtained by indexing the
two-phase problem with a phase (`josie/solver/twophase/problem.py` is
absent from `src/`).  Its flux tensor is the single-phase Euler flux of
`src/josie/euler/problem.py`, which is a function of the stored state
fields only — the phase's EOS is never consulted by `F` — so the flux
function is extensionally the same for both phases. -/
def TwoPhaseProblem.phaseF (ph : Phases) (s : EulerState) : Fin 4 → Fin 2 → ℚ :=
  match ph with
  | .phase1 => eulerFluxTensor s
  | .phase2 => eulerFluxTensor s

/-- Per-face embedding of the two-phase `Rusanov.F`
(`src/josie/solver/twophase/schemes.py`, lines 82–170), with the leftover
debugger invocation of line 138 omitted as the documentation directs.
`FS0` is the content of the freshly allocated (`np.empty_like`)
uninitialized output buffer `FS`; for each phase the flux written into
that phase's conservative slots is
`surface * (DeltaF - DeltaQ)` where `DeltaF` is the averaged flux tensor
dotted with the normal — the source averages
`problem[PHASE1].F(phase_values)` with `problem[PHASE2].F(phase_neigh_values)`
— and `DeltaQ` is `0.5 * sigma * (conservative jump)`. -/
def Rusanov.F (values neigh_values : Q2) (normal : Vec2) (surface : ℚ)
    (FS0 : Q2) : Q2 :=
  let sigma := rusanovSigma values neigh_values normal
  let fluxOf : Phases → Fin 4 → ℚ := fun ph k =>
    let phase_values := values.get_phase ph
    let phase_neigh_values := neigh_values.get_phase ph
    let DeltaF : Fin 4 → ℚ := fun l =>
      (0.5 * (TwoPhaseProblem.phaseF .phase1 phase_values l 0
          + TwoPhaseProblem.phaseF .phase2 phase_neigh_values l 0)) * normal.1
        + (0.5 * (TwoPhaseProblem.phaseF .phase1 phase_values l 1
          + TwoPhaseProblem.phaseF .phase2 phase_neigh_values l 1)) * normal.2
    let DeltaQ : Fin 4 → ℚ := fun l =>
      0.5 * sigma * (phase_neigh_values.cons l - phase_values.cons l)
    surface * (DeltaF k - DeltaQ k)
  (FS0.set_phase_conservative .phase1 (fluxOf .phase1)).set_phase_conservative
    .phase2 (fluxOf .phase2)

/-- The face-normal interfacial velocity computed inside `Upwind.G`
(`src/josie/solver/twophase/schemes.py`, lines 59–67), embedded exactly as
written: the source assigns `UI_VI_neigh = self.problem.closure.uI(values)`
— evaluating the closure on `values` a second time rather than on
`neigh_values` — so both projected velocities come from the cell state.
The closure `uI` is a parameter, modelled from the spec as a pure function
of a state (`josie/solver/twophase/closure.py` is absent from `src/`). -/
def Upwind.U_face (uI : Q2 → Vec2) (values neigh_values : Q2)
    (normal : Vec2) : ℚ :=
  let UI_VI := uI values
  let UI_VI_neigh := uI values
  let UI := dot UI_VI normal
  let UI_neigh := dot UI_VI_neigh normal
  0.5 * (UI + UI_neigh)

/-- The flattened 19-slot view of a two-phase state: the mixture field
followed by the nine fields of each phase.  Modelled from the spec's field
partition (`josie/solver/twophase/state.py` is absent from `src/`); the
claims never depend on the particular order chosen here. -/
def Q2.toVec (q : Q2) : Fin 19 → ℚ :=
  ![q.alpha,
    q.phase1.rho, q.phase1.rhoU, q.phase1.rhoV, q.phase1.rhoE,
    q.phase1.rhoe, q.phase1.U, q.phase1.V, q.phase1.p, q.phase1.c,
    q.phase2.rho, q.phase2.rhoU, q.phase2.rhoV, q.phase2.rhoE,
    q.phase2.rhoe, q.phase2.U, q.phase2.V, q.phase2.p, q.phase2.c]

/-- The normal as a two-slot vector, for the outer products taken by the
schemes. -/
def Vec2.toVec (n : Vec2) : Fin 2 → ℚ := ![n.1, n.2]

/-- Per-face embedding of `Upwind.G`
(`src/josie/solver/twophase/schemes.py`, lines 49–78).  `Qface0` is the
content of the freshly allocated (`np.empty_like`) uninitialized buffer
`Q_face`; faces with positive face-normal interfacial velocity select the
neighbour state, negative ones select the cell state, and a face with
exactly zero velocity keeps the buffer content.  The result is the outer
product of the selected face state with the normal (`surfaces` is accepted
but never read, as in the source). -/
def Upwind.G (uI : Q2 → Vec2) (values neigh_values : Q2) (normal : Vec2)
    (surface : ℚ) (Qface0 : Q2) : Fin 19 → Fin 2 → ℚ :=
  let U_face := Upwind.U_face uI values neigh_values normal
  let Q_face : Q2 :=
    if U_face > 0 then neigh_values
    else if U_face < 0 then values
    else Qface0
  let _ := surface
  fun i k => Q_face.toVec i * normal.toVec k

/-- Modelled from the spec: the single-phase Euler `Rusanov.CFL` bound
(`josie/solver/euler/schemes.py` is absent from `src/`), in single-cell
form: `dt = cfl_number × (surface-normalized cell size) / sigma` with
`sigma = |U·n| + c` the local signal speed. -/
def EulerRusanov.CFL (phase_values : EulerState) (volume : ℚ)
    (normal : Vec2) (surface : ℚ) (CFL_value : ℚ) : ℚ :=
  CFL_value * (volume / surface) / sigmaSide phase_values normal

/-- Per-face embedding of the two-phase `Rusanov.CFL`
(`src/josie/solver/twophase/schemes.py`, lines 172–196): `dt` is
initialized to the big value `1e9` and then the single-phase Euler CFL
bound of each phase is folded in with `min`, phase 1 first. -/
def Rusanov.CFL (values : Q2) (volume : ℚ) (normal : Vec2) (surface : ℚ)
    (CFL_value : ℚ) : ℚ :=
  let dt : ℚ := 10 ^ 9
  let dt := min
    (EulerRusanov.CFL (values.get_phase .phase1) volume normal surface
      CFL_value) dt
  let dt := min
    (EulerRusanov.CFL (values.get_phase .phase2) volume normal surface
      CFL_value) dt
  dt

/-- Modelled from the spec: `ConvectiveScheme.accumulate`
(`josie/solver/scheme/convective.py` is absent from `src/`) returns the
convective flux contribution alone, here the two-phase Rusanov flux,
flattened to the 19-slot view. -/
def ConvectiveScheme.accumulate (values neigh_values : Q2) (normal : Vec2)
    (surface : ℚ) (FS0 : Q2) : Fin 19 → ℚ :=
  (Rusanov.F values neigh_values normal surface FS0).toVec

/-- Per-face embedding of `NonConservativeScheme.accumulate`
(`src/josie/solver/scheme/nonconservative.py`, lines 56–73) for a scheme
composing both capabilities: the fluxes computed by the convective
`super().accumulate` come first, then the coupling tensor `B` — a
parameter, modelled from the spec as a pure function of a state since
`josie/solver/twophase/problem.py` is absent from `src/` — is averaged
between cell and neighbour and contracted
(`np.einsum "...ijk,...jk->...i"`) against the scheme's interface term
`G`, and the contraction is added to the fluxes. -/
def NonConservativeScheme.accumulate
    (B : Q2 → Fin 19 → Fin 19 → Fin 2 → ℚ) (uI : Q2 → Vec2)
    (values neigh_values : Q2) (normal : Vec2) (surface : ℚ)
    (FS0 Qface0 : Q2) : Fin 19 → ℚ :=
  let fluxes := ConvectiveScheme.accumulate values neigh_values normal
    surface FS0
  let Bavg : Fin 19 → Fin 19 → Fin 2 → ℚ := fun i j k =>
    0.5 * (B values i j k + B neigh_values i j k)
  let g := Upwind.G uI values neigh_values normal surface Qface0
  fun i => fluxes i + ∑ j : Fin 19, ∑ k : Fin 2, Bavg i j k * g j k

/-- Broadcast length of two leading dimensions under numpy's rules for the
shapes the kernels receive: equal lengths agree, a length of one is
stretched to the other, and anything else is not broadcastable. -/
def bLen (a b : ℕ) : Option ℕ :=
  if a = b then some a
  else if a = 1 then some b
  else if b = 1 then some a
  else none

/-- Broadcast element access: a length-one array supplies its single
element at every index. -/
def bget {α : Type} [Inhabited α] (l : List α) (i : ℕ) : α :=
  if l.length = 1 then l.headD default else l.getD i default

/-- Array-level embedding of `Upwind.G` over all faces at once
(`src/josie/solver/twophase/schemes.py`, lines 49–78): the per-face kernel
is mapped over the broadcast leading dimension of `values`, `neigh_values`
and `normals`.  There is no validation at the top of the operation: the
only possible failure is numpy's broadcasting error (`none`) when the
leading dimensions neither agree nor can be stretched from one, and
`surfaces` — never read by the kernel — is not checked at all.  `buffer`
is the uninitialized `np.empty_like(values)` output buffer. -/
def Upwind.Gvec (uI : Q2 → Vec2) (values neigh_values : List Q2)
    (normals : List Vec2) (surfaces : List ℚ) (buffer : List Q2) :
    Option (List (Fin 19 → Fin 2 → ℚ)) :=
  match (bLen values.length neigh_values.length).bind
      (fun m => bLen m normals.length) with
  | none => none
  | some m =>
    some ((List.range m).map (fun i =>
      Upwind.G uI (bget values i) (bget neigh_values i) (bget normals i)
        (bget surfaces i) (bget buffer i)))

/-- Embedding of `np.linspace(0, 1, num)`: `num` uniform samples of
`[0, 1]`, degenerating to the single sample `0` when `num ≤ 1`. -/
def linspace01 (num i : ℕ) : ℚ :=
  if num ≤ 1 then 0 else (i : ℚ) / ((num : ℚ) - 1)

/-- The transfinite-interpolation (Coons patch) formula computed inside
the double loop of `Mesh.generate` (`src/josie/mesh.py`, lines 65–86),
for one `(xi, eta)` pair and both coordinates at once. -/
def coons (left bottom right top : ℚ → ℚ × ℚ) (xi eta : ℚ) : ℚ × ℚ :=
  ((1 - xi) * (left eta).1 + xi * (right eta).1
      + (1 - eta) * (bottom xi).1 + eta * (top xi).1
      - (1 - xi) * (1 - eta) * (bottom 0).1 - (1 - xi) * eta * (top 0).1
      - (1 - eta) * xi * (bottom 1).1 - xi * eta * (top 1).1,
   (1 - xi) * (left eta).2 + xi * (right eta).2
      + (1 - eta) * (bottom xi).2 + eta * (top xi).2
      - (1 - xi) * (1 - eta) * (bottom 0).2 - (1 - xi) * eta * (top 0).2
      - (1 - eta) * xi * (bottom 1).2 - xi * eta * (top 1).2)

/-- Embedding of `Mesh.generate` (`src/josie/mesh.py`, lines 50–88): the
two freshly built `num_xi × num_eta` coordinate arrays, entry `(i, j)`
holding the Coons interpolant at the uniformly sampled
`(xi_i, eta_j)`. -/
def Mesh.generate (left bottom right top : ℚ → ℚ × ℚ)
    (num_xi num_eta : ℕ) :
    (Fin num_xi → Fin num_eta → ℚ) × (Fin num_xi → Fin num_eta → ℚ) :=
  (fun i j =>
      (coons left bottom right top (linspace01 num_xi i.val)
        (linspace01 num_eta j.val)).1,
   fun i j =>
      (coons left bottom right top (linspace01 num_xi i.val)
        (linspace01 num_eta j.val)).2)

/-- The mutable class-level data of the single `State` class
(`src/josie/solver/state.py`): the `_variables` tuple and the
`_StateDescriptor` bindings installed with `setattr`.  Both live on the
class itself and are therefore shared by every instance and every
"state type" produced by `StateTemplate`. -/
structure StateClass where
  vars : List String
  descriptors : List (String × ℕ)
  deriving DecidableEq, Repr

/-- Installing one `_StateDescriptor` with `setattr(cls, field, ...)`
(`src/josie/solver/state.py`, line 117): an existing binding for the name
is overwritten, otherwise a new binding is appended. -/
def setDescriptor (ds : List (String × ℕ)) (name : String) (i : ℕ) :
    List (String × ℕ) :=
  if ds.any (fun p => p.1 = name) then
    ds.map (fun p => if p.1 = name then (name, i) else p)
  else
    ds ++ [(name, i)]

/-- The descriptor-installation loop
`for i, field in enumerate(cls._variables): setattr(...)`
(`src/josie/solver/state.py`, lines 116–117), binding the fields starting
at index `i0`. -/
def bindDescriptorsAux (ds : List (String × ℕ)) (vars : List String)
    (i0 : ℕ) : List (String × ℕ) :=
  match vars with
  | [] => ds
  | f :: rest => bindDescriptorsAux (setDescriptor ds f i0) rest (i0 + 1)

/-- Binding every field of `vars` to its position, from index zero. -/
def bindDescriptors (ds : List (String × ℕ)) (vars : List String) :
    List (String × ℕ) :=
  bindDescriptorsAux ds vars 0

/-- Attribute lookup through the installed descriptors: the index bound to
the name, when one exists. -/
def getDescriptor (ds : List (String × ℕ)) (name : String) : Option ℕ :=
  (ds.find? (fun p => p.1 = name)).map (fun p => p.2)

/-- Embedding of `StateTemplate.__new__`
(`src/josie/solver/state.py`, lines 158–162): it returns the `State` class
itself after overwriting the shared `_variables`; no descriptors are
touched. -/
def StateTemplate.new (cls : StateClass) (fields : List String) :
    StateClass :=
  { cls with vars := fields }

/-- Embedding of `State.__new__` (`src/josie/solver/state.py`,
lines 97–121).  Mixing positional and keyword values is a `ValueError`;
keyword construction overwrites the shared `_variables` with the keyword
names; positional construction requires the argument count to match the
current `_variables`.  Either way the descriptor loop then rebinds, on the
shared class, every current variable name to its position, and the new
instance's storage is the list of values. -/
def State.new (cls : StateClass) (args : List ℚ)
    (kwargs : List (String × ℚ)) : Except String (StateClass × List ℚ) :=
  if args ≠ [] ∧ kwargs ≠ [] then
    .error "ValueError: positional or keyword arguments only, not both"
  else if kwargs ≠ [] then
    let cls1 : StateClass := { cls with vars := kwargs.map (fun p => p.1) }
    .ok ({ cls1 with
            descriptors := bindDescriptors cls1.descriptors cls1.vars },
      kwargs.map (fun p => p.2))
  else if args.length ≠ cls.vars.length then
    .error "ValueError: argument count must match the state variables"
  else
    .ok ({ cls with
            descriptors := bindDescriptors cls.descriptors cls.vars },
      args)

/-- Named read through a descriptor (`_StateDescriptor.__get__` followed by
`obj[self.i]`, `src/josie/solver/state.py`, lines 48–51). -/
def get_field (cls : StateClass) (s : List ℚ) (name : String) : Option ℚ :=
  (getDescriptor cls.descriptors name).bind (fun i => s.get? i)

/-- Named in-place write through a descriptor (`_StateDescriptor.__set__`,
`src/josie/solver/state.py`, lines 53–54). -/
def set_field (cls : StateClass) (s : List ℚ) (name : String) (v : ℚ) :
    List ℚ :=
  match getDescriptor cls.descriptors name with
  | some i => s.set i v
  | none => s

section Lemmas

/-- Reading back the conservative slots just written returns the written
four-vector. -/
lemma EulerState.setCons_cons (s : EulerState) (v : Fin 4 → ℚ) :
    (s.setCons v).cons = v := by
  funext k
  fin_cases k <;> rfl

/-- Writing one phase's conservative slots leaves the other phase's
sub-state unchanged, and the written phase reads back the write. -/
lemma get_phase_set_phase_conservative (q : Q2) (ph ph' : Phases)
    (v : Fin 4 → ℚ) :
    (q.set_phase_conservative ph v).get_phase ph' =
      if ph' = ph then (q.get_phase ph').setCons v else q.get_phase ph' := by
  cases ph <;> cases ph' <;> rfl

/-- The first sample of `np.linspace(0, 1, num)` is `0`. -/
lemma linspace01_zero (num : ℕ) : linspace01 num 0 = 0 := by
  unfold linspace01
  split <;> simp

/-- The last sample of `np.linspace(0, 1, num)` is `1` when at least two
points are requested. -/
lemma linspace01_last (num : ℕ) (h : 2 ≤ num) :
    linspace01 num (num - 1) = 1 := by
  unfold linspace01
  rw [if_neg (by omega)]
  rw [Nat.cast_sub (by omega : 1 ≤ num)]
  push_cast
  have h2 : (num : ℚ) - 1 ≠ 0 := by
    have : (2 : ℚ) ≤ (num : ℚ) := by exact_mod_cast h
    linarith
  exact div_self h2

/-- The Coons interpolant at `xi = 0` is the left boundary curve. -/
lemma coons_left (L B R T : ℚ → ℚ × ℚ) (eta : ℚ) :
    coons L B R T 0 eta = L eta := by
  rw [Prod.ext_iff]
  constructor <;> (simp only [coons]; ring)

/-- The Coons interpolant at `xi = 1` is the right boundary curve. -/
lemma coons_right (L B R T : ℚ → ℚ × ℚ) (eta : ℚ) :
    coons L B R T 1 eta = R eta := by
  rw [Prod.ext_iff]
  constructor <;> (simp only [coons]; ring)

/-- The Coons interpolant at `eta = 0` is the bottom boundary curve, given
that the two bottom corners are consistent. -/
lemma coons_bottom (L B R T : ℚ → ℚ × ℚ) (hbl : L 0 = B 0)
    (hbr : R 0 = B 1) (xi : ℚ) : coons L B R T xi 0 = B xi := by
  unfold coons
  rw [hbl, hbr, Prod.ext_iff]
  constructor <;> (simp only []; ring)

/-- The Coons interpolant at `eta = 1` is the top boundary curve, given
that the two top corners are consistent. -/
lemma coons_top (L B R T : ℚ → ℚ × ℚ) (htl : L 1 = T 0)
    (htr : R 1 = T 1) (xi : ℚ) : coons L B R T xi 1 = T xi := by
  unfold coons
  rw [htl, htr, Prod.ext_iff]
  constructor <;> (simp only []; ring)

end Lemmas

section Examples

/-- A single-phase state whose face-normal signal speed against the unit
normal `(1, 0)` is `|1| + 1 = 2`. -/
def sFast : EulerState := ⟨1, 1, 0, 1, 1, 1, 0, 1, 1⟩

/-- A single-phase state whose face-normal signal speed against the unit
normal `(1, 0)` is `|0| + 1 = 1`. -/
def sSlow : EulerState := ⟨1, 0, 0, 1, 1, 0, 0, 1, 1⟩

/-- The slow state with a different density, giving a conservative jump. -/
def sSlowB : EulerState := ⟨3, 0, 0, 1, 1, 0, 0, 1, 1⟩

/-- A two-phase state: fast phase 1, slow phase 2. -/
def qFS : Q2 := ⟨1 / 2, sFast, sSlow⟩

/-- A neighbouring two-phase state: fast phase 1, slow phase 2 with a
density jump. -/
def qFSn : Q2 := ⟨1 / 2, sFast, sSlowB⟩

/-- The all-zero two-phase state, used as one buffer content. -/
def qZero : Q2 := ⟨0, ⟨0, 0, 0, 0, 0, 0, 0, 0, 0⟩, ⟨0, 0, 0, 0, 0, 0, 0, 0, 0⟩⟩

/-- A buffer content differing from `qZero` in the mixture field. -/
def qOne : Q2 := ⟨1, ⟨0, 0, 0, 0, 0, 0, 0, 0, 0⟩, ⟨0, 0, 0, 0, 0, 0, 0, 0, 0⟩⟩

/-- The unit face normal along the first axis. -/
def nmX : Vec2 := ((1 : ℚ), (0 : ℚ))

/-- A closure returning the mixture field as the first velocity component:
it distinguishes cell from neighbour whenever their mixture fields
differ. -/
def uIalpha : Q2 → Vec2 := fun q => (q.alpha, 0)

/-- The zero interfacial-velocity closure. -/
def uIzeroV : Q2 → Vec2 := fun _ => ((0 : ℚ), (0 : ℚ))

/-- A constant unit interfacial-velocity closure. -/
def uIone : Q2 → Vec2 := fun _ => ((1 : ℚ), (0 : ℚ))

/-- A cell state with mixture field `1`. -/
def qP : Q2 := ⟨1, sSlow, sSlow⟩

/-- A neighbour state with mixture field `-1`. -/
def qM : Q2 := ⟨-1, sSlow, sSlow⟩

/-- A single-phase state at rest with sound speed `1e-10`: its single-cell
Euler CFL bound at unit volume, surface and CFL number is `1e10`. -/
def sTiny : EulerState := ⟨1, 0, 0, 1, 1, 0, 0, 1, 1 / 10000000000⟩

/-- A two-phase state with both phases equal to `sTiny`. -/
def qTiny : Q2 := ⟨1 / 2, sTiny, sTiny⟩

/-- Left edge of the unit square, `eta ↦ (0, eta)`. -/
def uLeft : ℚ → ℚ × ℚ := fun eta => (0, eta)

/-- Bottom edge of the unit square, `xi ↦ (xi, 0)`. -/
def uBottom : ℚ → ℚ × ℚ := fun xi => (xi, 0)

/-- Right edge of the unit square, `eta ↦ (1, eta)`. -/
def uRight : ℚ → ℚ × ℚ := fun eta => (1, eta)

/-- Top edge of the unit square, `xi ↦ (xi, 1)`. -/
def uTop : ℚ → ℚ × ℚ := fun xi => (xi, 1)

end Examples

section Claims

/-- C10: `EulerProblem.F` returns a fresh `Nx × Ny × 4 × 2` flux tensor
whose rows are `(rhoU, rhoV)`, `(rhoU·U + p, rhoU·V)`,
`(rhoV·U, rhoV·V + p)`, `((rhoE + p)·U, (rhoE + p)·V)`, computed purely
from the fields stored in the state: the pressure is the state's `p`
field, and altering the fields the flux does not read (`rho`, `rhoe`,
`c`) — or any EOS data, none of which `F` touches — leaves the tensor
unchanged. -/
theorem euler_problem_F_entries {nx ny : ℕ}
    (cells : Fin nx → Fin ny → EulerState) (i : Fin nx) (j : Fin ny)
    (r re cc : ℚ) :
    (EulerProblem.F cells i j 0 0 = (cells i j).rhoU
      ∧ EulerProblem.F cells i j 0 1 = (cells i j).rhoV)
    ∧ (EulerProblem.F cells i j 1 0 = (cells i j).rhoU * (cells i j).U
          + (cells i j).p
      ∧ EulerProblem.F cells i j 1 1 = (cells i j).rhoU * (cells i j).V)
    ∧ (EulerProblem.F cells i j 2 0 = (cells i j).rhoV * (cells i j).U
      ∧ EulerProblem.F cells i j 2 1 = (cells i j).rhoV * (cells i j).V
          + (cells i j).p)
    ∧ (EulerProblem.F cells i j 3 0 = ((cells i j).rhoE + (cells i j).p)
          * (cells i j).U
      ∧ EulerProblem.F cells i j 3 1 = ((cells i j).rhoE + (cells i j).p)
          * (cells i j).V)
    ∧ eulerFluxTensor { cells i j with rho := r, rhoe := re, c := cc }
        = eulerFluxTensor (cells i j) := by
  refine ⟨⟨rfl, rfl⟩, ⟨rfl, rfl⟩, ⟨rfl, rfl⟩, ⟨rfl, rfl⟩, rfl⟩

/-- The conservative slots written by the two-phase Rusanov flux, in closed
form; shared by the flux-formula and shared-dissipation theorems below. -/
lemma rusanovF_cons (values neigh_values : Q2) (normal : Vec2)
    (surface : ℚ) (FS0 : Q2) (ph : Phases) (k : Fin 4) :
    ((Rusanov.F values neigh_values normal surface FS0).get_phase ph).cons k
      = surface *
        ((0.5 * (eulerFluxTensor (values.get_phase ph) k 0
            + eulerFluxTensor (neigh_values.get_phase ph) k 0) * normal.1
          + 0.5 * (eulerFluxTensor (values.get_phase ph) k 1
            + eulerFluxTensor (neigh_values.get_phase ph) k 1) * normal.2)
        - 0.5 * rusanovSigma values neigh_values normal
            * ((neigh_values.get_phase ph).cons k
              - (values.get_phase ph).cons k)) := by
  cases ph <;>
    simp [Rusanov.F, get_phase_set_phase_conservative,
      EulerState.setCons_cons, TwoPhaseProblem.phaseF]

/-- C1: for every face and each phase, the two-phase Rusanov flux written
into that phase's conservative slots is the single-phase Rusanov formula
on that phase's own sub-states:
`surface × (0.5×(F(values)+F(neigh_values))·normal −
0.5×sigma×(conservative(neigh_values) − conservative(values)))`,
with `F` the phase's flux tensor evaluated on the cell's and on the
neighbour's phase values. -/
theorem rusanov_phase_flux (values neigh_values : Q2) (normal : Vec2)
    (surface : ℚ) (FS0 : Q2) (ph : Phases) (k : Fin 4) :
    ((Rusanov.F values neigh_values normal surface FS0).get_phase ph).cons k
      = surface *
        ((0.5 * (eulerFluxTensor (values.get_phase ph) k 0
            + eulerFluxTensor (neigh_values.get_phase ph) k 0) * normal.1
          + 0.5 * (eulerFluxTensor (values.get_phase ph) k 1
            + eulerFluxTensor (neigh_values.get_phase ph) k 1) * normal.2)
        - 0.5 * rusanovSigma values neigh_values normal
            * ((neigh_values.get_phase ph).cons k
              - (values.get_phase ph).cons k)) := by
  exact rusanovF_cons values neigh_values normal surface FS0 ph k

/-- C3: the dissipation coefficient used by both phases' flux formulas is
the single global maximum of the local signal speed `|U_norm| + c` over
both phases and both sides of the face; when phase 1's local signal speed
(over both sides) strictly exceeds phase 2's, the sigma entering phase 2's
conservative flux slots is phase 1's sigma, not phase 2's own smaller
value. -/
theorem rusanov_sigma_shared (values neigh_values : Q2) (normal : Vec2)
    (surface : ℚ) (FS0 : Q2) (k : Fin 4) :
    rusanovSigma values neigh_values normal
      = max
          (max (compute_sigma (compute_U_norm (values.get_phase .phase1) normal)
              (values.get_phase .phase1).c)
            (compute_sigma (compute_U_norm (neigh_values.get_phase .phase1) normal)
              (neigh_values.get_phase .phase1).c))
          (max (compute_sigma (compute_U_norm (values.get_phase .phase2) normal)
              (values.get_phase .phase2).c)
            (compute_sigma (compute_U_norm (neigh_values.get_phase .phase2) normal)
              (neigh_values.get_phase .phase2).c))
    ∧ (max (sigmaSide (values.get_phase .phase2) normal)
          (sigmaSide (neigh_values.get_phase .phase2) normal)
        < max (sigmaSide (values.get_phase .phase1) normal)
            (sigmaSide (neigh_values.get_phase .phase1) normal) →
        ((Rusanov.F values neigh_values normal surface FS0).get_phase
            .phase2).cons k
          = surface *
            ((0.5 * (eulerFluxTensor (values.get_phase .phase2) k 0
                + eulerFluxTensor (neigh_values.get_phase .phase2) k 0)
                  * normal.1
              + 0.5 * (eulerFluxTensor (values.get_phase .phase2) k 1
                + eulerFluxTensor (neigh_values.get_phase .phase2) k 1)
                  * normal.2)
            - 0.5 * max (sigmaSide (values.get_phase .phase1) normal)
                  (sigmaSide (neigh_values.get_phase .phase1) normal)
                * ((neigh_values.get_phase .phase2).cons k
                  - (values.get_phase .phase2).cons k))) := by
  constructor
  · rfl
  · intro h
    have hsig : rusanovSigma values neigh_values normal
        = max (sigmaSide (values.get_phase .phase1) normal)
            (sigmaSide (neigh_values.get_phase .phase1) normal) := by
      unfold rusanovSigma
      exact max_eq_left h.le
    rw [rusanovF_cons values neigh_values normal surface FS0 .phase2 k, hsig]

/-- Witness for the shared-dissipation theorem: a face whose phase 1
signal speed (2) strictly exceeds phase 2's (1); the density jump of 2 in
phase 2 is dissipated with phase 1's sigma, giving `-2` in the first
conservative slot (phase 2's own sigma would have given `-1`). -/
theorem rusanov_sigma_shared_witness :
    (max (sigmaSide (Q2.get_phase qFS .phase2) nmX)
        (sigmaSide (Q2.get_phase qFSn .phase2) nmX)
      < max (sigmaSide (Q2.get_phase qFS .phase1) nmX)
          (sigmaSide (Q2.get_phase qFSn .phase1) nmX))
    ∧ ((Rusanov.F qFS qFSn nmX 1 qZero).get_phase .phase2).cons 0 = -2 := by
  have hlt : max (sigmaSide (Q2.get_phase qFS .phase2) nmX)
      (sigmaSide (Q2.get_phase qFSn .phase2) nmX)
    < max (sigmaSide (Q2.get_phase qFS .phase1) nmX)
        (sigmaSide (Q2.get_phase qFSn .phase1) nmX) := by
    norm_num [sigmaSide, compute_sigma, compute_U_norm, Q2.get_phase,
      qFS, qFSn, sFast, sSlow, sSlowB, nmX, max_def]
  refine ⟨hlt, ?_⟩
  have h := (rusanov_sigma_shared qFS qFSn nmX 1 qZero 0).2 hlt
  rw [h]
  norm_num [eulerFluxTensor, EulerState.cons, sigmaSide, compute_sigma,
    compute_U_norm, Q2.get_phase, qFS, qFSn, sFast, sSlow, sSlowB, nmX,
    max_def]

/-- C2 (failing input): `Upwind.G` assigns
`UI_VI_neigh = self.problem.closure.uI(values)`, evaluating the closure a
second time on the cell state instead of on the neighbour state.  With a
closure returning the mixture field along the first axis, a cell with
mixture field `1` and a neighbour with mixture field `-1` across the
normal `(1, 0)` give `U_face = 1` in the code, while the claimed
`0.5 × (uI(values)·n + uI(neigh_values)·n)` is `0`. -/
theorem upwind_uface_neigh_bug :
    Upwind.U_face uIalpha qP qM nmX = 1
    ∧ 0.5 * (dot (uIalpha qP) nmX + dot (uIalpha qM) nmX) = 0
    ∧ (1 : ℚ) ≠ 0 := by
  refine ⟨?_, ?_, by norm_num⟩ <;>
    norm_num [Upwind.U_face, dot, uIalpha, qP, qM, nmX]

/-- C4 (counterexample): on a face whose face-normal interfacial velocity
is exactly zero, `Upwind.G` returns the content of the uninitialized
(`np.empty_like`) buffer tensored with the normal, so two calls with equal
`(values, neigh_values, normals, surfaces)` but different buffer contents
return different outputs: the kernel is not a function of its four
arguments alone. -/
theorem upwind_G_zero_face_not_deterministic :
    Upwind.G uIzeroV qP qM nmX 1 qZero ≠ Upwind.G uIzeroV qP qM nmX 1 qOne := by
  intro h
  have h0 := congrFun (congrFun h 0) 0
  norm_num [Upwind.G, Upwind.U_face, uIzeroV, dot, qZero, qOne, Q2.toVec,
    Vec2.toVec, nmX, qP, qM] at h0

/-- C4 (amended): `Upwind.G` is a function of its arguments together with
the initial content of the face-value buffer; on every face whose
face-normal interfacial velocity is nonzero the output is independent of
the buffer, i.e. there it is a function of the four arguments alone. -/
theorem upwind_G_buffer_independent (uI : Q2 → Vec2)
    (values neigh_values : Q2) (normal : Vec2) (surface : ℚ) (b1 b2 : Q2)
    (h : Upwind.U_face uI values neigh_values normal ≠ 0) :
    Upwind.G uI values neigh_values normal surface b1
      = Upwind.G uI values neigh_values normal surface b2 := by
  unfold Upwind.G
  by_cases hpos : Upwind.U_face uI values neigh_values normal > 0
  · simp [hpos]
  · by_cases hneg : Upwind.U_face uI values neigh_values normal < 0
    · simp [hpos, hneg]
    · exact absurd (le_antisymm (not_lt.mp hpos) (not_lt.mp hneg)) h

/-- Witness for the buffer-independence theorem at a face with unit
face-normal interfacial velocity. -/
theorem upwind_G_buffer_independent_witness :
    Upwind.U_face uIone qP qM nmX ≠ 0
    ∧ Upwind.G uIone qP qM nmX 1 qZero = Upwind.G uIone qP qM nmX 1 qOne := by
  have hne : Upwind.U_face uIone qP qM nmX ≠ 0 := by
    norm_num [Upwind.U_face, uIone, dot, qP, qM, nmX]
  exact ⟨hne, upwind_G_buffer_independent uIone qP qM nmX 1 qZero qOne hne⟩

/-- C5: for a scheme composing the convective and the nonconservative
capabilities, `accumulate` is the convective contribution plus the
contraction of the averaged coupling tensor
`0.5 × (B(values) + B(neigh_values))` against the scheme's interface term
`G(values, neigh_values, normals, surfaces)`. -/
theorem accumulate_convective_plus_nonconservative
    (B : Q2 → Fin 19 → Fin 19 → Fin 2 → ℚ) (uI : Q2 → Vec2)
    (values neigh_values : Q2) (normal : Vec2) (surface : ℚ)
    (FS0 Qface0 : Q2) (i : Fin 19) :
    NonConservativeScheme.accumulate B uI values neigh_values normal
        surface FS0 Qface0 i
      = ConvectiveScheme.accumulate values neigh_values normal surface FS0 i
        + ∑ j : Fin 19, ∑ k : Fin 2,
            (0.5 * (B values i j k + B neigh_values i j k))
              * Upwind.G uI values neigh_values normal surface Qface0 j k :=
  rfl

/-- C6 (amended): the two-phase `Rusanov.CFL` is the minimum of the two
per-phase single-phase CFL bounds and the initialization constant `1e9`;
it equals the minimum over the phases exactly when that minimum does not
exceed `1e9`. -/
theorem rusanov_cfl_min_capped (values : Q2) (volume : ℚ) (normal : Vec2)
    (surface : ℚ) (CFL_value : ℚ) :
    Rusanov.CFL values volume normal surface CFL_value
      = min ((10 : ℚ) ^ 9)
          (min (EulerRusanov.CFL (values.get_phase .phase1) volume normal
              surface CFL_value)
            (EulerRusanov.CFL (values.get_phase .phase2) volume normal
              surface CFL_value)) := by
  have hmin : ∀ a b c : ℚ, min c (min b a) = min a (min b c) := by
    intro a b c
    rw [min_comm b a, min_left_comm, min_comm c b]
  simp only [Rusanov.CFL]
  exact hmin _ _ _

/-- C6 (counterexample): with both phases at rest, sound speed `1e-10`,
unit volume, surface and CFL number, each per-phase Euler bound is `1e10`,
so the minimum over the phases is `1e10`; the code returns the
initialization value `1e9` instead. -/
theorem rusanov_cfl_cap_hit :
    Rusanov.CFL qTiny 1 nmX 1 1 = 10 ^ 9
    ∧ min (EulerRusanov.CFL (Q2.get_phase qTiny .phase1) 1 nmX 1 1)
        (EulerRusanov.CFL (Q2.get_phase qTiny .phase2) 1 nmX 1 1) = 10 ^ 10
    ∧ ((10 : ℚ) ^ 9) ≠ 10 ^ 10 := by
  refine ⟨?_, ?_, by norm_num⟩ <;>
    norm_num [Rusanov.CFL, EulerRusanov.CFL, sigmaSide, compute_sigma,
      compute_U_norm, Q2.get_phase, qTiny, sTiny, nmX, min_def]

/-- C7: `Mesh.generate` samples `xi` and `eta` uniformly over `[0, 1]`
with `num_xi` and `num_eta` points and returns `num_xi × num_eta` arrays
whose entries are the transfinite (Coons) interpolant with the four corner
contributions `B(0), T(0), B(1), T(1)` subtracted at weights
`(1-xi)(1-eta)`, `(1-xi)·eta`, `xi·(1-eta)`, `xi·eta`; when the adjacent
corner evaluations of the supplied curves coincide, the grid at
`xi ∈ {0, 1}` and `eta ∈ {0, 1}` reproduces the four boundary curves
exactly. -/
theorem mesh_generate_transfinite (left bottom right top : ℚ → ℚ × ℚ)
    (num_xi num_eta : ℕ) (i : Fin num_xi) (j : Fin num_eta)
    (hxi : 2 ≤ num_xi) (heta : 2 ≤ num_eta)
    (hbl : left 0 = bottom 0) (htl : left 1 = top 0)
    (hbr : right 0 = bottom 1) (htr : right 1 = top 1) :
    ((Mesh.generate left bottom right top num_xi num_eta).1 i j,
        (Mesh.generate left bottom right top num_xi num_eta).2 i j)
      = coons left bottom right top (linspace01 num_xi i.val)
          (linspace01 num_eta j.val)
    ∧ (i.val = 0 →
        ((Mesh.generate left bottom right top num_xi num_eta).1 i j,
            (Mesh.generate left bottom right top num_xi num_eta).2 i j)
          = left (linspace01 num_eta j.val))
    ∧ (i.val = num_xi - 1 →
        ((Mesh.generate left bottom right top num_xi num_eta).1 i j,
            (Mesh.generate left bottom right top num_xi num_eta).2 i j)
          = right (linspace01 num_eta j.val))
    ∧ (j.val = 0 →
        ((Mesh.generate left bottom right top num_xi num_eta).1 i j,
            (Mesh.generate left bottom right top num_xi num_eta).2 i j)
          = bottom (linspace01 num_xi i.val))
    ∧ (j.val = num_eta - 1 →
        ((Mesh.generate left bottom right top num_xi num_eta).1 i j,
            (Mesh.generate left bottom right top num_xi num_eta).2 i j)
          = top (linspace01 num_xi i.val)) := by
  have hc : ((Mesh.generate left bottom right top num_xi num_eta).1 i j,
      (Mesh.generate left bottom right top num_xi num_eta).2 i j)
    = coons left bottom right top (linspace01 num_xi i.val)
        (linspace01 num_eta j.val) := Prod.mk.eta
  refine ⟨hc, ?_, ?_, ?_, ?_⟩
  · intro h0
    rw [hc, h0, linspace01_zero, coons_left]
  · intro h1
    rw [hc, h1, linspace01_last num_xi hxi, coons_right]
  · intro h0
    rw [hc, h0, linspace01_zero,
      coons_bottom left bottom right top hbl hbr]
  · intro h1
    rw [hc, h1, linspace01_last num_eta heta,
      coons_top left bottom right top htl htr]

/-- Witness for the transfinite-interpolation theorem on the unit square
with a `3 × 3` grid, at the right-edge node `(2, 1)`. -/
theorem mesh_generate_transfinite_witness :
    (2 ≤ 3 ∧ uLeft 0 = uBottom 0 ∧ uLeft 1 = uTop 0
      ∧ uRight 0 = uBottom 1 ∧ uRight 1 = uTop 1)
    ∧ ((Mesh.generate uLeft uBottom uRight uTop 3 3).1 (2 : Fin 3)
          (1 : Fin 3),
        (Mesh.generate uLeft uBottom uRight uTop 3 3).2 (2 : Fin 3)
          (1 : Fin 3))
      = uRight (linspace01 3 (1 : Fin 3).val) := by
  refine ⟨⟨by norm_num, rfl, rfl, rfl, rfl⟩, ?_⟩
  exact (mesh_generate_transfinite uLeft uBottom uRight uTop 3 3 2 1
    (by norm_num) (by norm_num) rfl rfl rfl rfl).2.2.1 rfl

end Claims

section StateLemmas

lemma getDescriptor_cons_pos (hd : String × ℕ) (tl : List (String × ℕ))
    (n : String) (h : hd.1 = n) :
    getDescriptor (hd :: tl) n = some hd.2 := by
  simp [getDescriptor, List.find?_cons_of_pos, h]

lemma getDescriptor_cons_neg (hd : String × ℕ) (tl : List (String × ℕ))
    (n : String) (h : ¬hd.1 = n) :
    getDescriptor (hd :: tl) n = getDescriptor tl n := by
  simp [getDescriptor, List.find?_cons_of_neg, h]

lemma getDescriptor_set_self (ds : List (String × ℕ)) (name : String)
    (i : ℕ) : getDescriptor (setDescriptor ds name i) name = some i := by
  induction ds with
  | nil => simp [setDescriptor, getDescriptor]
  | cons hd tl ih =>
    by_cases hh : hd.1 = name
    · have hany : ((hd :: tl).any (fun p => p.1 = name)) = true := by
        simp [hh]
      rw [setDescriptor, if_pos hany, List.map_cons, if_pos hh]
      exact getDescriptor_cons_pos (name, i) _ name rfl
    · by_cases htl : (tl.any (fun p => p.1 = name)) = true
      · have hany : ((hd :: tl).any (fun p => p.1 = name)) = true := by
          simp only [List.any_cons, htl, Bool.or_true]
        rw [setDescriptor, if_pos hany, List.map_cons, if_neg hh,
          getDescriptor_cons_neg hd _ name hh]
        rw [setDescriptor, if_pos htl] at ih
        exact ih
      · have hany : ¬((hd :: tl).any (fun p => p.1 = name)) = true := by
          simp only [List.any_cons, Bool.or_eq_true, decide_eq_true_eq]
          rintro (hc | hc)
          · exact hh hc
          · exact htl (by simpa using hc)
        rw [setDescriptor, if_neg hany, List.cons_append,
          getDescriptor_cons_neg hd _ name hh]
        rw [setDescriptor, if_neg (by simpa using htl)] at ih
        exact ih

lemma getDescriptor_map_set_ne (tl : List (String × ℕ))
    (name n : String) (i : ℕ) (hne : ¬n = name) :
    getDescriptor (tl.map (fun p => if p.1 = name then (name, i) else p)) n
      = getDescriptor tl n := by
  induction tl with
  | nil => rfl
  | cons hd tl ih =>
    by_cases hh : hd.1 = name
    · rw [List.map_cons, if_pos hh,
        getDescriptor_cons_neg (name, i) _ n (fun hc => hne hc.symm),
        getDescriptor_cons_neg hd _ n (by rw [hh]; exact fun hc => hne hc.symm)]
      exact ih
    · rw [List.map_cons, if_neg hh]
      by_cases hdn : hd.1 = n
      · rw [getDescriptor_cons_pos hd _ n hdn,
          getDescriptor_cons_pos hd _ n hdn]
      · rw [getDescriptor_cons_neg hd _ n hdn,
          getDescriptor_cons_neg hd _ n hdn]
        exact ih

lemma getDescriptor_append_ne (ds : List (String × ℕ))
    (name n : String) (i : ℕ) (hne : ¬n = name) :
    getDescriptor (ds ++ [(name, i)]) n = getDescriptor ds n := by
  induction ds with
  | nil =>
    rw [List.nil_append,
      getDescriptor_cons_neg (name, i) _ n (fun hc => hne hc.symm)]
  | cons hd tl ih =>
    rw [List.cons_append]
    by_cases hdn : hd.1 = n
    · rw [getDescriptor_cons_pos hd _ n hdn,
        getDescriptor_cons_pos hd _ n hdn]
    · rw [getDescriptor_cons_neg hd _ n hdn,
        getDescriptor_cons_neg hd _ n hdn]
      exact ih

lemma getDescriptor_set_other (ds : List (String × ℕ)) (name n : String)
    (i : ℕ) (hne : ¬n = name) :
    getDescriptor (setDescriptor ds name i) n = getDescriptor ds n := by
  unfold setDescriptor
  by_cases h : (ds.any (fun p => p.1 = name)) = true
  · rw [if_pos h]
    exact getDescriptor_map_set_ne ds name n i hne
  · rw [if_neg h]
    exact getDescriptor_append_ne ds name n i hne

lemma bindDescriptorsAux_not_mem (vars : List String)
    (ds : List (String × ℕ)) (i0 : ℕ) (name : String)
    (h : name ∉ vars) :
    getDescriptor (bindDescriptorsAux ds vars i0) name
      = getDescriptor ds name := by
  induction vars generalizing ds i0 with
  | nil => rfl
  | cons f rest ih =>
    simp only [List.mem_cons, not_or] at h
    unfold bindDescriptorsAux
    rw [ih (setDescriptor ds f i0) (i0 + 1) h.2,
      getDescriptor_set_other ds f name i0 h.1]

lemma bindDescriptorsAux_get (vars : List String)
    (ds : List (String × ℕ)) (i0 k : ℕ) (hk : k < vars.length)
    (hnd : vars.Nodup) :
    getDescriptor (bindDescriptorsAux ds vars i0) (vars.get ⟨k, hk⟩)
      = some (i0 + k) := by
  induction vars generalizing ds i0 k with
  | nil => exact absurd hk (by simp)
  | cons f rest ih =>
    rcases List.nodup_cons.mp hnd with ⟨hf, hrest⟩
    cases k with
    | zero =>
      unfold bindDescriptorsAux
      rw [show (f :: rest).get ⟨0, hk⟩ = f from rfl,
        bindDescriptorsAux_not_mem rest (setDescriptor ds f i0) (i0 + 1)
          f hf,
        getDescriptor_set_self, Nat.add_zero]
    | succ n =>
      have hk2 : n < rest.length := by simpa using Nat.lt_of_succ_lt_succ hk
      unfold bindDescriptorsAux
      rw [show (f :: rest).get ⟨n + 1, hk⟩ = rest.get ⟨n, hk2⟩ from rfl,
        ih (setDescriptor ds f i0) (i0 + 1) n hk2 hrest]
      congr 1
      omega

lemma get?_set_self_rat (l : List ℚ) (k : ℕ) (v : ℚ) (h : k < l.length) :
    (l.set k v).get? k = some v := by
  induction l generalizing k with
  | nil => exact absurd h (by simp)
  | cons hd tl ih =>
    cases k with
    | zero => rfl
    | succ n => exact ih n (by simpa using Nat.lt_of_succ_lt_succ h)


end StateLemmas

section Claims2

/-- C8 (amended): immediately after a positional construction from a class
whose field list is duplicate-free, every field reads back the positional
value at its defined index, and after an in-place `set_field` the written
value is read back — as long as no other construction rebinds the shared
class-level descriptors in between. -/
theorem state_field_roundtrip (cls : StateClass) (args : List ℚ) (v : ℚ)
    (k : ℕ) (hnd : cls.vars.Nodup) (hlen : args.length = cls.vars.length)
    (hk : k < cls.vars.length) :
    State.new cls args []
      = .ok ({ cls with
          descriptors := bindDescriptors cls.descriptors cls.vars }, args)
    ∧ get_field
        { cls with
          descriptors := bindDescriptors cls.descriptors cls.vars }
        args (cls.vars.get ⟨k, hk⟩) = args.get? k
    ∧ get_field
        { cls with
          descriptors := bindDescriptors cls.descriptors cls.vars }
        (set_field
          { cls with
            descriptors := bindDescriptors cls.descriptors cls.vars }
          args (cls.vars.get ⟨k, hk⟩) v)
        (cls.vars.get ⟨k, hk⟩) = some v := by
  have hget : getDescriptor (bindDescriptors cls.descriptors cls.vars)
      (cls.vars.get ⟨k, hk⟩) = some k := by
    have h := bindDescriptorsAux_get cls.vars cls.descriptors 0 k hk hnd
    simpa [bindDescriptors] using h
  refine ⟨?_, ?_, ?_⟩
  · unfold State.new
    rw [if_neg (by simp), if_neg (by simp), if_neg (by omega)]
  · unfold get_field
    rw [hget]
    rfl
  · unfold get_field set_field
    rw [hget]
    show (args.set k v).get? k = some v
    exact get?_set_self_rat args k v (by omega)

/-- Witness for the field round-trip at the two-field class
`["a", "b"]` with positional values `[3, 4]`. -/
theorem state_field_roundtrip_witness :
    (["a", "b"] : List String).Nodup
    ∧ get_field ⟨["a", "b"], bindDescriptors [] ["a", "b"]⟩ [3, 4] "b"
        = some 4 := by
  refine ⟨by decide, ?_⟩
  exact (state_field_roundtrip ⟨["a", "b"], []⟩ [3, 4] 7 1 (by decide)
    (by decide) (by decide)).2.1

/-- C8 (counterexample): the field-name→index mapping lives on the single
shared `State` class, so constructing a `State` with keyword arguments in
a different order rebinds the shared descriptors and changes the index at
which an existing instance's field is read: after building `s = [10, 20]`
for fields `["a", "b"]` (where field `"a"` reads `10`), constructing a
state with keywords `b, a` makes `s`'s field `"a"` read `20`. -/
theorem state_shared_class_mutation :
    State.new (StateTemplate.new ⟨[], []⟩ ["a", "b"]) [10, 20] []
      = .ok (⟨["a", "b"], [("a", 0), ("b", 1)]⟩, [10, 20])
    ∧ get_field ⟨["a", "b"], [("a", 0), ("b", 1)]⟩ [10, 20] "a" = some 10
    ∧ State.new ⟨["a", "b"], [("a", 0), ("b", 1)]⟩ [] [("b", 1), ("a", 2)]
      = .ok (⟨["b", "a"], [("a", 1), ("b", 0)]⟩, [1, 2])
    ∧ get_field ⟨["b", "a"], [("a", 1), ("b", 0)]⟩ [10, 20] "a" = some 20
    ∧ some (20 : ℚ) ≠ some (10 : ℚ) := by
  refine ⟨rfl, rfl, rfl, rfl, by simp⟩

/-- C9 (amended): the per-face scheme operations perform no
leading-dimension validation and raise no `ShapeError`; numpy broadcasting
applies instead, so `Upwind.G` called on two faces with a single shared
normal (leading dimensions 2 versus 1) completes and returns the full
per-face results, the one normal broadcast to both faces and the unread
`surfaces` input never checked at all. -/
theorem upwind_Gvec_broadcasts (uI : Q2 → Vec2) (q1 q2 n1 n2 : Q2)
    (nm : Vec2) (surfaces : List ℚ) (b1 b2 : Q2) :
    Upwind.Gvec uI [q1, q2] [n1, n2] [nm] surfaces [b1, b2]
      = some [Upwind.G uI q1 n1 nm (bget surfaces 0) b1,
          Upwind.G uI q2 n2 nm (bget surfaces 1) b2] := rfl

/-- C9 (counterexample): a concrete call whose `values` and `normals`
disagree in their leading dimension (2 versus 1) and whose `surfaces`
have yet another length; no `ShapeError` is raised — the computation
proceeds to a full result. -/
theorem upwind_Gvec_no_shape_error :
    (Upwind.Gvec uIone [qP, qM] [qP, qM] [nmX] [1] [qZero, qZero]).isSome
        = true
    ∧ ([qP, qM].length ≠ [nmX].length
        ∧ [qP, qM].length ≠ ([1] : List ℚ).length) := by
  exact ⟨rfl, by simp, by simp⟩

end Claims2

end Josie
